import Mathlib

/-!
Verification of the MAC-to-IP correlation engine in `src/connector.py` and
`src/main.py`.

Strings are modelled as lists of characters (`Str := List Char`); Python
dictionaries are modelled as association lists with Python's insertion-order
semantics (updating an existing key keeps its position, new keys are appended).
Python objects that are shared by reference (the per-MAC info dictionaries)
are modelled with an explicit store of cells addressed by natural numbers, so
that copying-vs-aliasing is visible in the model.
-/

set_option maxRecDepth 8192

abbrev Str := List Char

def str (s : String) : Str := s.toList

/-- Python `s.lower()` (ASCII). -/
def lowerStr (s : Str) : Str := s.map Char.toLower

/-- Python `s.replace(':', '').replace('.', '')` as used on MAC strings in
`map_mac_to_ip` (connector.py lines 380, 384, 443, 448). -/
def stripSeps (s : Str) : Str :=
  (s.filter (fun c => c ≠ ':')).filter (fun c => c ≠ '.')

/-- The comparison-canonical MAC transform: lower-case, then strip all colon
and period separators.  In the code the lower-casing happens when the MAC is
extracted and the separator stripping happens in `map_mac_to_ip`. -/
def canon (s : Str) : Str := stripSeps (lowerStr s)

/-! ## Output classifier (connector.py lines 166-170 and 344-349) -/

/-- Keyword set of the MAC-table task (connector.py line 168). -/
def macKeywords : List Str := [str "mac", str "address", str "vlan"]

/-- Keyword set of the ARP-table task (connector.py line 347). -/
def arpKeywords : List Str := [str "ip", str "address", str "mac", str "age", str "interface"]

/-- connector.py lines 167-168: `len(output) > 100 and ("mac" in output.lower()
or "address" in output.lower() or "vlan" in output.lower())`. -/
def isValidMacOutput (output : Str) : Bool :=
  decide (output.length > 100) &&
    (decide (str "mac" <:+: lowerStr output) ||
     decide (str "address" <:+: lowerStr output) ||
     decide (str "vlan" <:+: lowerStr output))

/-- connector.py lines 346-347: `len(output) > 100 and any(term in
output.lower() for term in ["ip", "address", "mac", "age", "interface"])`. -/
def isValidArpOutput (output : Str) : Bool :=
  decide (output.length > 100) &&
    arpKeywords.any (fun t => decide (t <:+: lowerStr output))

/-! ## Positional fallback field detector (connector.py lines 274-289) -/

/-- The character set `'0123456789abcdefABCDEF.:'` of connector.py line 278. -/
def hexOrSepChars : Str := str "0123456789abcdefABCDEF.:"

/-- connector.py lines 277-278: a field is a MAC candidate when it is truthy
and contains `:` or `.`, or has length 12, 14 or 17 with every character in
`'0123456789abcdefABCDEF.:'`. -/
def macCandidate (f : Str) : Bool :=
  !f.isEmpty &&
    (decide (':' ∈ f) || decide ('.' ∈ f) ||
      ((decide (f.length = 12) || decide (f.length = 14) || decide (f.length = 17)) &&
        f.all (fun c => decide (c ∈ hexOrSepChars))))

/-- Reserved status words of connector.py line 284. -/
def reservedWords : List Str := [str "dynamic", str "static", str "learned"]

/-- Interface-prefix set of connector.py line 286. -/
def portPrefixes : List Str :=
  [str "gi", str "fa", str "eth", str "po", str "vlan", str "te", str "port"]

/-- connector.py lines 284-286: a truthy field whose lower-cased form is not a
reserved word and contains one of the known interface prefixes. -/
def isPortField (f : Str) : Bool :=
  !f.isEmpty && !(decide (lowerStr f ∈ reservedWords)) &&
    portPrefixes.any (fun p => decide (p <:+: lowerStr f))

/-- Index of the first MAC-candidate field (the `for i, field in
enumerate(entry)` loop of connector.py line 275). -/
def findMacIdx (entry : List Str) : Option Nat :=
  (List.range entry.length).find? (fun i => macCandidate (entry.getD i []))

/-- Index of the first port-looking field other than `i` (the `for j,
port_field in enumerate(entry)` loop of connector.py line 283). -/
def findPortIdx (entry : List Str) (i : Nat) : Option Nat :=
  (List.range entry.length).find? (fun j => decide (j ≠ i) && isPortField (entry.getD j []))

/-- connector.py lines 262-289: positional extraction for records with at
least 7 fields, then the fallback detector when no (truthy) MAC was found.
Returns `(mac, port, vlan)`, with `[]` standing for Python's `None`/`""`. -/
def extractFields (entry : List Str) : Str × Str × Str :=
  let vlan := if entry.length ≥ 7 then entry.getD 0 [] else []
  let mac := if entry.length ≥ 7 then entry.getD 1 [] else []
  let port := if entry.length ≥ 7 then entry.getD 6 [] else []
  if mac.isEmpty then
    match findMacIdx entry with
    | some i =>
        let mac := entry.getD i []
        let port :=
          match findPortIdx entry i with
          | some j => entry.getD j []
          | none => port
        (mac, port, vlan)
    | none => ([], port, vlan)
  else (mac, port, vlan)

/-! ## Association lists with Python dict semantics -/

/-- Python dict assignment `d[k] = v`: replace in place when the key exists
(keeping the original key object and position), append otherwise. -/
def dictInsert (k : Str) (v : α) (m : List (Str × α)) : List (Str × α) :=
  match m with
  | [] => [(k, v)]
  | (k', v') :: rest =>
      if k' = k then (k', v) :: rest else (k', v') :: dictInsert k v rest

/-- Python dict lookup `d[k]`. -/
def alookup (k : Str) (m : List (Str × α)) : Option α :=
  match m with
  | [] => none
  | (k', v') :: rest => if k' = k then some v' else alookup k rest

/-! ## MAC table builder (connector.py lines 260-305) -/

/-- The per-MAC info dictionary `{'port': ..., 'device': ..., 'vlan': ...}`
(connector.py lines 298-302); `ip` is added later by `map_mac_to_ip` and is
absent (`none`) until then. -/
structure MacInfo where
  port : Str
  device : Str
  vlan : Str
  ip : Option Str
deriving DecidableEq

abbrev BTable := List (Str × MacInfo)

/-- Processing of one extracted record in `collect_mac_addresses`
(connector.py lines 262-303): extract fields, lower-case the MAC, and
store/update the entry when the MAC is new or the new port is truthy and not
`'unknown'`. -/
def buildStep (host : Str) (tbl : BTable) (entry : List Str) : BTable :=
  let (mac, port, vlan) := extractFields entry
  if mac.isEmpty then tbl
  else
    let mac := lowerStr mac
    if (alookup mac tbl).isNone || (!port.isEmpty && decide (port ≠ str "unknown")) then
      dictInsert mac
        ⟨if port.isEmpty then str "unknown" else port, host,
          if vlan.isEmpty then str "unknown" else vlan, none⟩ tbl
    else tbl

/-- A MAC-table build over a sequence of (hostname, extracted-record)
observations: the flattened double loop of connector.py lines 242-303. -/
def buildTable (obs : List (Str × List Str)) : BTable :=
  obs.foldl (fun t o => buildStep o.1 t o.2) []

/-! ## EVPN overlay parsing (connector.py lines 207-236) -/

/-- ASCII whitespace recognised by Python `str.split()`. -/
def isSpace (c : Char) : Bool :=
  decide (c = ' ') || decide (c = '\t') || decide (c = '\n') || decide (c = '\r') ||
    decide (c = '\x0b') || decide (c = '\x0c')

/-- Accumulator worker for `splitWs`: `cur` holds the characters of the
current token in reverse. -/
def splitWsAux (cur : Str) (s : Str) : List Str :=
  match s with
  | [] => if cur.isEmpty then [] else [cur.reverse]
  | c :: rest =>
      if isSpace c then
        if cur.isEmpty then splitWsAux [] rest
        else cur.reverse :: splitWsAux [] rest
      else splitWsAux (c :: cur) rest

/-- Python `line.split()`: split on runs of whitespace, no empty tokens. -/
def splitWs (s : Str) : List Str := splitWsAux [] s

/-- Python `output.splitlines()` restricted to `'\n'` separators (the only
line separator occurring in this data; empty segments are inert because they
cannot contain the token `"mac"`). -/
def splitLines (s : Str) : List Str := s.splitOn '\n'

/-- Digits-only check for `int()` (nonempty, all ASCII digits). -/
def allDigits (s : Str) : Bool :=
  !s.isEmpty && s.all (fun c => decide ('0' ≤ c) && decide (c ≤ '9'))

def digitsToNat (s : Str) : Nat :=
  s.foldl (fun n c => n * 10 + (c.toNat - '0'.toNat)) 0

/-- Python `int(s)` for ASCII decimal strings (optional surrounding
whitespace, optional single sign, no underscore separators), `none` when
`int` would raise `ValueError`. -/
def pyInt? (s : Str) : Option Int :=
  let t := ((s.dropWhile isSpace).reverse.dropWhile isSpace).reverse
  match t with
  | '+' :: ds => if allDigits ds then some (digitsToNat ds) else none
  | '-' :: ds => if allDigits ds then some (-(digitsToNat ds : Int)) else none
  | ds => if allDigits ds then some (digitsToNat ds) else none

/-- connector.py lines 230-236 (`is_valid_ip`): split on `'.'`, require 4
groups, each parsing via `int()` into `0..255`; a `ValueError` is caught and
yields `False`. -/
def isValidIp (s : Str) : Bool :=
  let parts := s.splitOn '.'
  decide (parts.length = 4) &&
    parts.all (fun p =>
      match pyInt? p with
      | some n => decide (0 ≤ n) && decide (n ≤ 255)
      | none => false)

/-- The window scan of connector.py lines 221-226: `for j in range(max(0,
i-3), min(len(parts), i+4))`, returning the first token that is a valid IP. -/
def findWindowIp (parts : List Str) (i : Nat) : Option Str :=
  ((List.range' (i - 3) (min parts.length (i + 4) - (i - 3))).find?
      (fun j => isValidIp (parts.getD j []))).map
    (fun j => parts.getD j [])

/-- One token of the EVPN line scan (connector.py lines 216-226): a token
containing `:` or `.` is treated as a MAC and the first valid IP in its
window is recorded (`bindings[mac] = ip`); the token loop then continues. -/
def evpnTokenStep (parts : List Str) (b : List (Str × Str)) (i : Nat) :
    List (Str × Str) :=
  let part := parts.getD i []
  if decide (':' ∈ part) || decide ('.' ∈ part) then
    match findWindowIp parts i with
    | some ip => dictInsert (lowerStr part) ip b
    | none => b
  else b

/-- connector.py lines 212-226: one line of EVPN output.  When the line
contains `"mac-ip"` or `"mac"` (case-insensitively), every whitespace token
is scanned in order with `evpnTokenStep`. -/
def parseEvpnLine (b : List (Str × Str)) (line : Str) : List (Str × Str) :=
  if decide (str "mac-ip" <:+: lowerStr line) || decide (str "mac" <:+: lowerStr line) then
    (List.range (splitWs line).length).foldl (evpnTokenStep (splitWs line)) b
  else b

/-- connector.py lines 207-228 (`parse_evpn_output`). -/
def parseEvpnOutput (output : Str) : List (Str × Str) :=
  (splitLines output).foldl parseEvpnLine []

/-! ## Correlator (connector.py lines 357-467) -/

/-- An IP/MAC pair produced by the ARP or overlay builder. -/
structure AddressBinding where
  mac : Str
  ip : Str
deriving DecidableEq

/-- The store of per-MAC info dictionaries: Python dict values are references
into this store, which makes `.copy()` versus in-place mutation explicit. -/
abbrev Store := List MacInfo

/-- The L2 MAC table as consumed by `map_mac_to_ip`: original stored MAC
string to the address of its info cell. -/
abbrev CTable := List (Str × Nat)

def dfltInfo : MacInfo := ⟨[], [], [], none⟩

/-- The match condition of connector.py lines 385 and 449: raw equality or
equality of the separator-stripped forms. -/
def matchCond (qmac k : Str) : Bool :=
  decide (qmac = k) || decide (stripSeps qmac = stripSeps k)

/-- The `for stored_mac in mac_addresses.keys()` scan with a `break` on first
match (connector.py lines 447-457 and 383-392). -/
def firstMatch (table : CTable) (qmac : Str) : Option (Str × Nat) :=
  table.find? (fun p => matchCond qmac p.1)

/-- Processing of one binding in `map_mac_to_ip`: on first match copy the
stored info cell (`mac_addresses[stored_mac].copy()`), add the IP to the
copy, and write it under the stored MAC (`mac_to_ip[stored_mac] =
mac_info`). -/
def correlateStep (table : CTable) (st : Store × List (Str × Nat))
    (b : AddressBinding) : Store × List (Str × Nat) :=
  match firstMatch table b.mac with
  | some (k, a) =>
      let info := st.1.getD a dfltInfo
      (st.1 ++ [{ info with ip := some b.ip }], dictInsert k st.1.length st.2)
  | none => st

/-- The correlation pass over a sequence of bindings (connector.py lines
378-392 in EVPN mode, 419-457 in ARP mode). -/
def correlate (store : Store) (table : CTable) (bs : List AddressBinding) :
    Store × List (Str × Nat) :=
  bs.foldl (correlateStep table) (store, [])

/-- Extraction of an (ip, mac) pair from one parsed ARP record (connector.py
lines 420-441): field 0 is the IP; field 2 is the MAC when it contains `:` or
`.`, else field 1 is tried; both must be truthy. -/
def extractBinding (entry : List Str) : Option AddressBinding :=
  if entry.length ≥ 3 then
    let ip := entry.getD 0 []
    let f2 := entry.getD 2 []
    let mac? :=
      if decide (':' ∈ f2) || decide ('.' ∈ f2) then some (lowerStr f2)
      else
        let f1 := entry.getD 1 []
        if decide (':' ∈ f1) || decide ('.' ∈ f1) then some (lowerStr f1) else none
    match mac? with
    | some mac => if ip.isEmpty then none else some ⟨mac, ip⟩
    | none => none
  else none

/-- The ARP-mode record loop of connector.py lines 419-465. -/
def processArpEntries (store : Store) (table : CTable)
    (entries : List (List Str)) : Store × List (Str × Nat) :=
  entries.foldl
    (fun st entry =>
      match extractBinding entry with
      | some b => correlateStep table st b
      | none => st)
    (store, [])

/-- The EVPN-mode matching loop of connector.py lines 378-392, consuming the
binding dict produced by `parse_evpn_output`. -/
def processEvpnBindings (store : Store) (table : CTable)
    (bdict : List (Str × Str)) : Store × List (Str × Nat) :=
  correlate store table (bdict.map (fun p => ⟨p.1, p.2⟩))

/-! ## Session lifecycle (connector.py lines 32-81, 238-313, 357-467) -/

/-- Environment oracle for the L2 collection phase: whether `connect`
succeeds for a hostname, and the output `get_mac_address_table` returns. -/
structure L2Env where
  connectOk : Str → Bool
  output : Str → Str
  parsed : Str → List (List Str)

/-- Environment oracle for the L3/overlay resolution phase. -/
structure L3Env where
  connectOk : Str → Bool
  output : Str → Str

/-- Model of `collect_mac_addresses` (connector.py lines 238-313): per host, a
successful `connect` registers a session; entries of hosts with non-empty
output are folded into the table; `disconnect_all` (lines 72-81) then
unconditionally empties the session set (every per-session error is caught
and `self.connections = {}` always runs).  Returns (table, open sessions). -/
def collectPhase (env : L2Env) (hosts : List Str) : BTable × List Str :=
  let st := hosts.foldl
    (fun (st : BTable × List Str) h =>
      if env.connectOk h then
        let sess := st.2 ++ [h]
        if (env.output h).isEmpty then (st.1, sess)
        else ((env.parsed h).foldl (buildStep h) st.1, sess)
      else st)
    ([], [])
  (st.1, [])

/-- Session bookkeeping of `map_mac_to_ip` in ARP mode (connector.py lines
396-465): sessions are opened by `connect` and never disconnected — neither a
per-device `disconnect()` nor `disconnect_all` appears on this path.  (The
data accumulation of the same loop is modelled by `processArpEntries`.) -/
def arpPhaseSessions (env : L3Env) (hosts : List Str) : List Str :=
  hosts.foldl (fun sess h => if env.connectOk h then sess ++ [h] else sess) []

/-- One device of `map_mac_to_ip` in VXLAN mode (connector.py lines 363-394):
`connect` registers the session; `connection.disconnect()` runs only when the
EVPN fetch returned non-empty output (`if not output: continue` skips it). -/
def evpnSessStep (env : L3Env) (sess : List Str) (h : Str) : List Str :=
  if env.connectOk h then
    let sess := sess ++ [h]
    if (env.output h).isEmpty then sess else sess.erase h
  else sess

/-- Session bookkeeping of `map_mac_to_ip` in VXLAN mode (connector.py lines
361-394): devices whose fetch failed keep their session open, and
`disconnect_all` is never called. -/
def evpnPhaseSessions (env : L3Env) (hosts : List Str) : List Str :=
  hosts.foldl (evpnSessStep env) []

/-! ## The three textual MAC formats (for the canonical-form claim) -/

def hexDigits : Str := str "0123456789abcdefABCDEF"

def isHexDigit (c : Char) : Bool := decide (c ∈ hexDigits)

/-- The 17-character colon-delimited form `aa:bb:cc:dd:ee:ff`. -/
def colonForm (a b c d e f g h i j k l : Char) : Str :=
  [a, b, ':', c, d, ':', e, f, ':', g, h, ':', i, j, ':', k, l]

/-- The 14-character dot-delimited form `aabb.ccdd.eeff`. -/
def dotForm (a b c d e f g h i j k l : Char) : Str :=
  [a, b, c, d, '.', e, f, g, h, '.', i, j, k, l]

/-- The three separator styles of the same 12 hex digits. -/
def macForms (a b c d e f g h i j k l : Char) : List Str :=
  [colonForm a b c d e f g h i j k l, dotForm a b c d e f g h i j k l,
    [a, b, c, d, e, f, g, h, i, j, k, l]]

/-! ## Basic lemmas -/

theorem find?_range'_spec (p : Nat → Bool) :
    ∀ (n s i : Nat), (List.range' s n).find? p = some i →
      p i = true ∧ s ≤ i ∧ i < s + n ∧ ∀ j, s ≤ j → j < i → p j = false := by
  intro n
  induction n with
  | zero => intro s i h; simp at h
  | succ n ih =>
      intro s i h
      rw [List.range'_succ, List.find?_cons] at h
      cases hp : p s with
      | true =>
          rw [hp] at h
          simp only [Option.some.injEq] at h
          subst h
          exact ⟨hp, Nat.le_refl _, by omega, fun j hj hji => by omega⟩
      | false =>
          rw [hp] at h
          obtain ⟨h1, h2, h3, h4⟩ := ih (s + 1) i h
          refine ⟨h1, by omega, by omega, fun j hj hji => ?_⟩
          rcases Nat.eq_or_lt_of_le hj with rfl | hlt
          · exact hp
          · exact h4 j hlt hji

theorem find?_range_spec (p : Nat → Bool) (n i : Nat)
    (h : (List.range n).find? p = some i) :
    p i = true ∧ i < n ∧ ∀ j, j < i → p j = false := by
  rw [List.range_eq_range'] at h
  obtain ⟨h1, _, h3, h4⟩ := find?_range'_spec p n 0 i h
  exact ⟨h1, by omega, fun j hj => h4 j (Nat.zero_le j) hj⟩

theorem find?_congr {α} (p q : α → Bool) (l : List α) (h : ∀ a ∈ l, p a = q a) :
    l.find? p = l.find? q := by
  induction l with
  | nil => rfl
  | cons a l ih =>
      have ha := h a (List.mem_cons_self a l)
      rw [List.find?_cons, List.find?_cons, ha]
      cases q a
      · exact ih fun x hx => h x (List.mem_cons_of_mem _ hx)
      · rfl

theorem alookup_dictInsert_self (k : Str) (v : α) (m : List (Str × α)) :
    alookup k (dictInsert k v m) = some v := by
  induction m with
  | nil => simp [dictInsert, alookup]
  | cons p rest ih =>
      obtain ⟨k', v'⟩ := p
      by_cases h : k' = k
      · subst h; simp [dictInsert, alookup]
      · simp [dictInsert, alookup, h, ih]

theorem alookup_dictInsert_ne (k k' : Str) (v : α) (m : List (Str × α))
    (h : k' ≠ k) : alookup k' (dictInsert k v m) = alookup k' m := by
  induction m with
  | nil =>
      simp only [dictInsert, alookup]
      rw [if_neg fun hh => h hh.symm]
  | cons p rest ih =>
      obtain ⟨k'', v''⟩ := p
      by_cases hk : k'' = k
      · subst hk
        simp only [dictInsert, if_pos rfl, alookup]
        rw [if_neg fun hh => h hh.symm, if_neg fun hh => h hh.symm]
      · simp only [dictInsert, if_neg hk, alookup]
        by_cases hk' : k'' = k'
        · rw [if_pos hk', if_pos hk']
        · rw [if_neg hk', if_neg hk', ih]

theorem mem_dictInsert (p : Str × α) (k : Str) (v : α) (m : List (Str × α))
    (h : p ∈ dictInsert k v m) : p = (k, v) ∨ p ∈ m := by
  induction m with
  | nil =>
      simp only [dictInsert, List.mem_singleton] at h
      exact Or.inl h
  | cons q rest ih =>
      obtain ⟨k', v'⟩ := q
      simp only [dictInsert] at h
      by_cases hk : k' = k
      · rw [if_pos hk] at h
        rcases List.mem_cons.mp h with h1 | h1
        · exact Or.inl (h1.trans (by rw [hk]))
        · exact Or.inr (List.mem_cons_of_mem _ h1)
      · rw [if_neg hk] at h
        rcases List.mem_cons.mp h with h1 | h1
        · exact Or.inr (by rw [h1]; exact List.mem_cons_self _ _)
        · rcases ih h1 with h2 | h2
          · exact Or.inl h2
          · exact Or.inr (List.mem_cons_of_mem _ h2)

theorem keys_dictInsert_mem (k : Str) (v : α) (m : List (Str × α))
    (h : k ∈ m.map Prod.fst) :
    (dictInsert k v m).map Prod.fst = m.map Prod.fst := by
  induction m with
  | nil => simp at h
  | cons p rest ih =>
      obtain ⟨k', v'⟩ := p
      by_cases hk : k' = k
      · simp only [dictInsert, if_pos hk, List.map_cons]
      · have h' : k ∈ rest.map Prod.fst := by
          simp only [List.map_cons, List.mem_cons] at h
          rcases h with h1 | h1
          · exact absurd h1.symm hk
          · exact h1
        simp only [dictInsert, if_neg hk, List.map_cons, ih h']

theorem keys_dictInsert_not_mem (k : Str) (v : α) (m : List (Str × α))
    (h : k ∉ m.map Prod.fst) :
    (dictInsert k v m).map Prod.fst = m.map Prod.fst ++ [k] := by
  induction m with
  | nil => simp [dictInsert]
  | cons p rest ih =>
      obtain ⟨k', v'⟩ := p
      simp only [List.map_cons, List.mem_cons, not_or] at h
      obtain ⟨h1, h2⟩ := h
      have hne : ¬k' = k := fun hh => h1 hh.symm
      simp only [dictInsert, if_neg hne, List.map_cons, ih h2, List.cons_append]

theorem nodup_keys_dictInsert (k : Str) (v : α) (m : List (Str × α))
    (h : (m.map Prod.fst).Nodup) : ((dictInsert k v m).map Prod.fst).Nodup := by
  by_cases hmem : k ∈ m.map Prod.fst
  · rw [keys_dictInsert_mem k v m hmem]; exact h
  · rw [keys_dictInsert_not_mem k v m hmem]
    rw [List.nodup_append]
    exact ⟨h, List.nodup_singleton k, fun a ha hb => by
      simp only [List.mem_singleton] at hb; subst hb; exact hmem ha⟩

theorem mem_keys_dictInsert_self (k : Str) (v : α) (m : List (Str × α)) :
    k ∈ (dictInsert k v m).map Prod.fst := by
  by_cases hmem : k ∈ m.map Prod.fst
  · rw [keys_dictInsert_mem k v m hmem]; exact hmem
  · rw [keys_dictInsert_not_mem k v m hmem]
    exact List.mem_append_right _ (List.mem_singleton_self k)

theorem mem_keys_dictInsert_mono (k₀ k : Str) (v : α) (m : List (Str × α))
    (h : k₀ ∈ m.map Prod.fst) : k₀ ∈ (dictInsert k v m).map Prod.fst := by
  by_cases hmem : k ∈ m.map Prod.fst
  · rw [keys_dictInsert_mem k v m hmem]; exact h
  · rw [keys_dictInsert_not_mem k v m hmem]
    exact List.mem_append_left _ h

theorem getD_of_extension {α} {l₁ l₂ : List α} (h : l₁ <+: l₂) {a : Nat}
    (ha : a < l₁.length) (d : α) : l₂.getD a d = l₁.getD a d := by
  obtain ⟨t, rfl⟩ := h
  exact List.getD_append _ _ _ _ ha

theorem getD_concat_self {α} (l : List α) (x d : α) :
    (l ++ [x]).getD l.length d = x := by
  simp [List.getD_eq_getElem?_getD, List.getElem?_concat_length]

/-! ## Properties of the match condition and of the correlation fold -/

theorem matchCond_eq (q k : Str) :
    matchCond q k = decide (stripSeps q = stripSeps k) := by
  by_cases h : q = k
  · subst h; simp [matchCond]
  · simp [matchCond, h]

theorem firstMatch_congr (t : CTable) (q₁ q₂ : Str)
    (h : stripSeps q₁ = stripSeps q₂) : firstMatch t q₁ = firstMatch t q₂ := by
  unfold firstMatch
  exact find?_congr _ _ t fun p _ => by rw [matchCond_eq, matchCond_eq, h]

theorem firstMatch_eq_some {t : CTable} {q k : Str} {a : Nat}
    (h : firstMatch t q = some (k, a)) :
    (k, a) ∈ t ∧ stripSeps q = stripSeps k ∧ firstMatch t k = some (k, a) := by
  have hmem := List.mem_of_find?_eq_some h
  have hp := List.find?_some h
  rw [matchCond_eq] at hp
  have hstrip : stripSeps q = stripSeps k := of_decide_eq_true hp
  exact ⟨hmem, hstrip, by rw [← firstMatch_congr t q k hstrip]; exact h⟩

theorem correlateStep_store_extends (t : CTable) (st : Store × List (Str × Nat))
    (b : AddressBinding) : st.1 <+: (correlateStep t st b).1 := by
  unfold correlateStep
  cases h : firstMatch t b.mac with
  | none => exact List.prefix_refl _
  | some p =>
      obtain ⟨k, a⟩ := p
      exact ⟨_, rfl⟩

theorem foldl_correlateStep_store_extends (t : CTable) (bs : List AddressBinding) :
    ∀ st : Store × List (Str × Nat), st.1 <+: (bs.foldl (correlateStep t) st).1 := by
  induction bs with
  | nil => intro st; exact List.prefix_refl _
  | cons b bs ih =>
      intro st
      exact List.IsPrefix.trans (correlateStep_store_extends t st b) (ih (correlateStep t st b))

theorem correlate_store_extends (store : Store) (t : CTable) (bs : List AddressBinding) :
    store <+: (correlate store t bs).1 :=
  foldl_correlateStep_store_extends t bs (store, [])

theorem processArpEntries_store_extends (store : Store) (t : CTable)
    (entries : List (List Str)) : store <+: (processArpEntries store t entries).1 := by
  unfold processArpEntries
  generalize hst : ((store, []) : Store × List (Str × Nat)) = st
  have hpre : store <+: st.1 := by rw [← hst]
  clear hst
  induction entries generalizing st with
  | nil => exact hpre
  | cons e es ih =>
      simp only [List.foldl_cons]
      cases he : extractBinding e with
      | none => exact ih _ hpre
      | some b => exact ih _ (List.IsPrefix.trans hpre (correlateStep_store_extends t st b))

theorem processEvpnBindings_store_extends (store : Store) (t : CTable)
    (bdict : List (Str × Str)) : store <+: (processEvpnBindings store t bdict).1 :=
  correlate_store_extends store t _

/-! ## Hex digits and the canonical form of the three MAC formats -/

theorem hex_toLower_ne (c : Char) (h : isHexDigit c = true) :
    Char.toLower c ≠ ':' ∧ Char.toLower c ≠ '.' := by
  have hm : c ∈ hexDigits := of_decide_eq_true h
  have hall : hexDigits.all
      (fun x => decide (Char.toLower x ≠ ':') && decide (Char.toLower x ≠ '.')) = true := by
    decide
  have hx := List.all_eq_true.mp hall c hm
  rw [Bool.and_eq_true, decide_eq_true_eq, decide_eq_true_eq] at hx
  exact hx

theorem canon_macForm_eq (a b c d e f g h i j k l : Char)
    (hx : ∀ x ∈ [a, b, c, d, e, f, g, h, i, j, k, l], isHexDigit x = true) :
    ∀ s ∈ macForms a b c d e f g h i j k l,
      canon s = lowerStr [a, b, c, d, e, f, g, h, i, j, k, l] := by
  have key : ∀ x ∈ [a, b, c, d, e, f, g, h, i, j, k, l],
      Char.toLower x ≠ ':' ∧ Char.toLower x ≠ '.' :=
    fun x hxm => hex_toLower_ne x (hx x hxm)
  simp only [List.forall_mem_cons, List.not_mem_nil, false_implies, implies_true,
    and_true] at key
  obtain ⟨t1, t2, t3, t4, t5, t6, t7, t8, t9, t10, t11, t12⟩ := key
  have tlc : Char.toLower ':' = ':' := by decide
  have tld : Char.toLower '.' = '.' := by decide
  have dne : ('.' : Char) ≠ ':' := by decide
  intro s hs
  simp only [macForms, List.mem_cons, List.not_mem_nil, or_false] at hs
  rcases hs with rfl | rfl | rfl
  · simp [canon, colonForm, lowerStr, stripSeps, tlc,
      t1.1, t1.2, t2.1, t2.2, t3.1, t3.2, t4.1, t4.2, t5.1, t5.2, t6.1, t6.2,
      t7.1, t7.2, t8.1, t8.2, t9.1, t9.2, t10.1, t10.2, t11.1, t11.2, t12.1, t12.2]
  · simp [canon, dotForm, lowerStr, stripSeps, tld, dne,
      t1.1, t1.2, t2.1, t2.2, t3.1, t3.2, t4.1, t4.2, t5.1, t5.2, t6.1, t6.2,
      t7.1, t7.2, t8.1, t8.2, t9.1, t9.2, t10.1, t10.2, t11.1, t11.2, t12.1, t12.2]
  · simp [canon, lowerStr, stripSeps,
      t1.1, t1.2, t2.1, t2.2, t3.1, t3.2, t4.1, t4.2, t5.1, t5.2, t6.1, t6.2,
      t7.1, t7.2, t8.1, t8.2, t9.1, t9.2, t10.1, t10.2, t11.1, t11.2, t12.1, t12.2]

/-- C2: for all MAC strings that differ only in separator style
(17-character colon form, 14-character dot form, or bare 12-hex form) and in
the case of their hex digits, the comparison-canonical transform of
`map_mac_to_ip` (strip all colons and periods, lower-case) produces identical
keys. -/
theorem canon_format_invariant
    (a₁ b₁ c₁ d₁ e₁ f₁ g₁ h₁ i₁ j₁ k₁ l₁ : Char)
    (a₂ b₂ c₂ d₂ e₂ f₂ g₂ h₂ i₂ j₂ k₂ l₂ : Char)
    (hx₁ : ∀ x ∈ [a₁, b₁, c₁, d₁, e₁, f₁, g₁, h₁, i₁, j₁, k₁, l₁], isHexDigit x = true)
    (hx₂ : ∀ x ∈ [a₂, b₂, c₂, d₂, e₂, f₂, g₂, h₂, i₂, j₂, k₂, l₂], isHexDigit x = true)
    (hcase : lowerStr [a₁, b₁, c₁, d₁, e₁, f₁, g₁, h₁, i₁, j₁, k₁, l₁] =
      lowerStr [a₂, b₂, c₂, d₂, e₂, f₂, g₂, h₂, i₂, j₂, k₂, l₂])
    (s₁ s₂ : Str)
    (hs₁ : s₁ ∈ macForms a₁ b₁ c₁ d₁ e₁ f₁ g₁ h₁ i₁ j₁ k₁ l₁)
    (hs₂ : s₂ ∈ macForms a₂ b₂ c₂ d₂ e₂ f₂ g₂ h₂ i₂ j₂ k₂ l₂) :
    canon s₁ = canon s₂ := by
  rw [canon_macForm_eq a₁ b₁ c₁ d₁ e₁ f₁ g₁ h₁ i₁ j₁ k₁ l₁ hx₁ s₁ hs₁,
    canon_macForm_eq a₂ b₂ c₂ d₂ e₂ f₂ g₂ h₂ i₂ j₂ k₂ l₂ hx₂ s₂ hs₂, hcase]

theorem canon_format_invariant_wit :
    canon (str "AA:BB:CC:DD:EE:FF") = canon (str "aabb.ccdd.eeff") :=
  canon_format_invariant
    'A' 'A' 'B' 'B' 'C' 'C' 'D' 'D' 'E' 'E' 'F' 'F'
    'a' 'a' 'b' 'b' 'c' 'c' 'd' 'd' 'e' 'e' 'f' 'f'
    (by decide) (by decide) (by decide)
    (str "AA:BB:CC:DD:EE:FF") (str "aabb.ccdd.eeff") (by decide) (by decide)

/-- C7: the output classifiers of `get_mac_address_table` and
`get_arp_table` accept a raw output iff its length exceeds 100 characters and
it case-insensitively contains at least one keyword of the task's keyword
set; consequently any output of length at most 100 (in particular length 50)
is rejected regardless of keyword content. -/
theorem output_classifier_spec :
    (∀ output : Str, isValidMacOutput output = true ↔
      (output.length > 100 ∧ ∃ kw ∈ macKeywords, kw <:+: lowerStr output)) ∧
    (∀ output : Str, isValidArpOutput output = true ↔
      (output.length > 100 ∧ ∃ kw ∈ arpKeywords, kw <:+: lowerStr output)) ∧
    (∀ output : Str, output.length ≤ 100 →
      isValidMacOutput output = false ∧ isValidArpOutput output = false) := by
  refine ⟨fun o => ?_, fun o => ?_, fun o h => ?_⟩
  · simp [isValidMacOutput, macKeywords, or_assoc]
  · simp [isValidArpOutput, arpKeywords]
  · have hno : ¬(100 : Nat) < o.length := by omega
    constructor
    · simp [isValidMacOutput, hno]
    · simp [isValidArpOutput, hno]

theorem output_classifier_spec_wit :
    isValidMacOutput (str "mac address-table vlan") = false ∧
      isValidArpOutput (str "mac address-table vlan") = false :=
  output_classifier_spec.2.2 (str "mac address-table vlan") (by decide)

def exampleFields : List Str :=
  [str "1", str "aabb.ccdd.eeff", str "dynamic", str "Gi1/0/1"]

/-- C6: the positional fallback detector classifies a field as a MAC
candidate iff it contains a colon or period, or has length exactly 12, 14 or
17 with every character a hex digit or separator; it takes the first such
field left to right; the port is the first other field whose lower-cased
value contains a known interface prefix and is not a reserved status word;
and on `["1", "aabb.ccdd.eeff", "dynamic", "Gi1/0/1"]` it finds the MAC at
index 1 and the port at index 3. -/
theorem fallback_detector_spec :
    (∀ f : Str, macCandidate f = true ↔
      (':' ∈ f ∨ '.' ∈ f ∨
        ((f.length = 12 ∨ f.length = 14 ∨ f.length = 17) ∧ ∀ c ∈ f, c ∈ hexOrSepChars))) ∧
    (∀ f : Str, isPortField f = true ↔
      (f ≠ [] ∧ lowerStr f ∉ reservedWords ∧ ∃ p ∈ portPrefixes, p <:+: lowerStr f)) ∧
    (∀ entry : List Str, ∀ i, findMacIdx entry = some i →
      macCandidate (entry.getD i []) = true ∧
        ∀ j, j < i → macCandidate (entry.getD j []) = false) ∧
    (∀ entry : List Str, ∀ i j, findPortIdx entry i = some j →
      j ≠ i ∧ isPortField (entry.getD j []) = true ∧
        ∀ j', j' < j → j' ≠ i → isPortField (entry.getD j' []) = false) ∧
    findMacIdx exampleFields = some 1 ∧ findPortIdx exampleFields 1 = some 3 := by
  refine ⟨fun f => ?_, fun f => ?_, fun entry i h => ?_, fun entry i j h => ?_,
    by decide, by decide⟩
  · cases f with
    | nil => simp [macCandidate]
    | cons c rest =>
        simp [macCandidate, List.all_eq_true, or_assoc]
  · simp [isPortField, List.any_eq_true, List.isEmpty_iff, and_assoc]
  · obtain ⟨h1, _, h3⟩ := find?_range_spec _ _ _ h
    exact ⟨h1, h3⟩
  · obtain ⟨h1, _, h3⟩ := find?_range_spec _ _ _ h
    rw [Bool.and_eq_true, decide_eq_true_eq] at h1
    refine ⟨h1.1, h1.2, fun j' hj' hne => ?_⟩
    have := h3 j' hj'
    cases hpf : isPortField (entry.getD j' []) with
    | false => rfl
    | true =>
        rw [hpf, Bool.and_true, decide_eq_false_iff_not] at this
        exact absurd hne this

theorem fallback_detector_spec_wit :
    findMacIdx exampleFields = some 1 ∧ findPortIdx exampleFields 1 = some 3 :=
  ⟨fallback_detector_spec.2.2.2.2.1, fallback_detector_spec.2.2.2.2.2⟩

/-! ## Overwrite behaviour of the MAC table builder -/

def obsPort1 : Str × List Str :=
  (str "sw1", [str "1", str "aa:bb", str "dynamic", str "gi0/1"])

def obsPort2 : Str × List Str :=
  (str "sw2", [str "1", str "aa:bb", str "dynamic", str "gi0/2"])

/-- C1 counterexample: after observing MAC `aa:bb` with the non-`unknown`
port `gi0/1`, a later observation of the same MAC with port `gi0/2` replaces
the stored port (and device), refuting the claim that a non-`unknown` port is
never replaced by any later value. -/
theorem mac_entry_overwrite_cx :
    alookup (str "aa:bb") (buildTable [obsPort1]) =
      some ⟨str "gi0/1", str "sw1", str "unknown", none⟩ ∧
    alookup (str "aa:bb") (buildTable [obsPort1, obsPort2]) =
      some ⟨str "gi0/2", str "sw2", str "unknown", none⟩ :=
  ⟨by decide, by decide⟩

/-- C1 (amended): once a `MacEntry` exists, the whole entry (port, device
and vlan together) is replaced exactly when a later observation for the same
canonical MAC supplies a truthy port different from `'unknown'` — the
existing port is not consulted, so a non-`unknown` port can be replaced by a
later non-`unknown` port, and vlan is not updated independently but rides
along with the port condition; an observation whose port is missing or
`'unknown'` never modifies an existing entry. -/
theorem mac_entry_overwrite_rule (host : Str) (tbl : BTable) (entry : List Str)
    (m p v : Str) (hext : extractFields entry = (m, p, v)) (hm : m ≠ [])
    (old : MacInfo) (hold : alookup (lowerStr m) tbl = some old) :
    (¬(p ≠ [] ∧ p ≠ str "unknown") → buildStep host tbl entry = tbl) ∧
    ((p ≠ [] ∧ p ≠ str "unknown") →
      alookup (lowerStr m) (buildStep host tbl entry) =
        some ⟨p, host, if v = [] then str "unknown" else v, none⟩ ∧
      ∀ k, k ≠ lowerStr m →
        alookup k (buildStep host tbl entry) = alookup k tbl) := by
  have hme : m.isEmpty = false := by
    cases m with
    | nil => exact absurd rfl hm
    | cons c cs => rfl
  have hnone : (alookup (lowerStr m) tbl).isNone = false := by
    rw [hold]; rfl
  constructor
  · intro hp
    rcases not_and_or.mp hp with hp1 | hp2
    · have hpe : p.isEmpty = true := by
        rcases not_not.mp (by simpa using hp1) with rfl
        rfl
      simp only [buildStep, hext, hme, Bool.false_eq_true, if_false, hnone, hpe,
        Bool.not_true, Bool.false_and, Bool.or_self]
    · have hpd : decide (p ≠ str "unknown") = false := by
        simp [not_not.mp hp2]
      simp only [buildStep, hext, hme, Bool.false_eq_true, if_false, hnone, hpd,
        Bool.and_false, Bool.or_self]
  · intro hp
    have hpe : p.isEmpty = false := by
      cases p with
      | nil => exact absurd rfl hp.1
      | cons c cs => rfl
    have hpd : decide (p ≠ str "unknown") = true := by simp [hp.2]
    have hred : buildStep host tbl entry =
        dictInsert (lowerStr m)
          ⟨if p.isEmpty then str "unknown" else p, host,
            if v.isEmpty then str "unknown" else v, none⟩ tbl := by
      simp only [buildStep, hext, hme, Bool.false_eq_true, if_false, hnone, hpe,
        Bool.not_false, hpd, Bool.true_and, Bool.or_true, if_true]
    rw [hred]
    constructor
    · rw [alookup_dictInsert_self]
      congr 1
      rw [hpe]
      congr 1
      cases v with
      | nil => rfl
      | cons c cs => rfl
    · intro k hk
      exact alookup_dictInsert_ne _ _ _ _ hk

theorem mac_entry_overwrite_rule_wit :
    alookup (lowerStr (str "aa:bb")) (buildStep (str "sw2") (buildTable [obsPort1]) obsPort2.2) =
      some ⟨str "gi0/2", str "sw2", if ([] : Str) = [] then str "unknown" else [], none⟩ :=
  ((mac_entry_overwrite_rule (str "sw2") (buildTable [obsPort1]) obsPort2.2
    (str "aa:bb") (str "gi0/2") [] (by decide) (by decide)
    ⟨str "gi0/1", str "sw1", str "unknown", none⟩ (by decide)).2
    ⟨by decide, by decide⟩).1

def obsUpper : Str × List Str :=
  (str "sw1", [str "1", str "AABB.CCDD.EEFF", str "dynamic", str "Gi0/1"])

/-- C8 counterexample: a record whose MAC field reads `AABB.CCDD.EEFF` is
stored under the lower-cased key `aabb.ccdd.eeff`; the original textual
representation is not preserved as the entry key. -/
theorem stored_mac_case_cx :
    (buildTable [obsUpper]).map Prod.fst = [str "aabb.ccdd.eeff"] ∧
    alookup (str "AABB.CCDD.EEFF") (buildTable [obsUpper]) = none :=
  ⟨by decide, by decide⟩

theorem buildStep_keys (host : Str) (tbl : BTable) (entry : List Str) :
    ∀ k ∈ (buildStep host tbl entry).map Prod.fst,
      k ∈ tbl.map Prod.fst ∨
        ∃ m p v, extractFields entry = (m, p, v) ∧ m ≠ [] ∧ k = lowerStr m := by
  intro k hk
  rcases hext : extractFields entry with ⟨m, p, v⟩
  simp only [buildStep, hext] at hk
  by_cases hme : m.isEmpty = true
  · rw [if_pos hme] at hk
    exact Or.inl hk
  · have hm : m ≠ [] := fun hh => hme (by rw [hh]; rfl)
    rw [if_neg hme] at hk
    by_cases hcond : ((alookup (lowerStr m) tbl).isNone ||
        (!p.isEmpty && decide (p ≠ str "unknown"))) = true
    · rw [if_pos hcond] at hk
      by_cases hmem : lowerStr m ∈ tbl.map Prod.fst
      · rw [keys_dictInsert_mem _ _ _ hmem] at hk
        exact Or.inl hk
      · rw [keys_dictInsert_not_mem _ _ _ hmem] at hk
        rcases List.mem_append.mp hk with h | h
        · exact Or.inl h
        · rw [List.mem_singleton] at h
          exact Or.inr ⟨m, p, v, rfl, hm, h⟩
    · rw [if_neg hcond] at hk
      exact Or.inl hk

theorem buildFold_keys (obs : List (Str × List Str)) (t : BTable) (k : Str)
    (hk : k ∈ (obs.foldl (fun tb o => buildStep o.1 tb o.2) t).map Prod.fst) :
    k ∈ t.map Prod.fst ∨
      ∃ o ∈ obs, ∃ m p v, extractFields o.2 = (m, p, v) ∧ m ≠ [] ∧ k = lowerStr m := by
  induction obs generalizing t with
  | nil => exact Or.inl hk
  | cons o os ih =>
      rw [List.foldl_cons] at hk
      rcases ih (buildStep o.1 t o.2) hk with h | ⟨o', ho', rest⟩
      · rcases buildStep_keys o.1 t o.2 k h with h' | ⟨m, p, v, h1, h2, h3⟩
        · exact Or.inl h'
        · exact Or.inr ⟨o, List.mem_cons_self _ _, m, p, v, h1, h2, h3⟩
      · exact Or.inr ⟨o', List.mem_cons_of_mem _ ho', rest⟩

/-- C8 (amended): the key under which a `MacEntry` is stored is the
lower-cased form of the MAC field as first observed — the separator style of
the original text is preserved (lower-casing does not touch `:` or `.`), but
hex-digit case is not; only separator stripping is reserved for comparison. -/
theorem stored_mac_key_shape (obs : List (Str × List Str)) (k : Str)
    (hk : k ∈ (buildTable obs).map Prod.fst) :
    ∃ o ∈ obs, ∃ m p v, extractFields o.2 = (m, p, v) ∧ m ≠ [] ∧ k = lowerStr m := by
  rcases buildFold_keys obs [] k hk with h | h
  · simp at h
  · exact h

theorem stored_mac_key_shape_wit :
    ∃ o ∈ [obsUpper], ∃ m p v, extractFields o.2 = (m, p, v) ∧ m ≠ [] ∧
      str "aabb.ccdd.eeff" = lowerStr m :=
  stored_mac_key_shape [obsUpper] (str "aabb.ccdd.eeff") (by decide)

/-! ## Session lifecycle results -/

theorem arpPhase_foldl (env : L3Env) (hosts : List Str) :
    ∀ s : List Str,
      hosts.foldl (fun sess h => if env.connectOk h then sess ++ [h] else sess) s =
        s ++ hosts.filter env.connectOk := by
  induction hosts with
  | nil => intro s; simp
  | cons h hs ih =>
      intro s
      rw [List.foldl_cons, List.filter_cons]
      by_cases hc : env.connectOk h = true
      · rw [if_pos hc, if_pos hc, ih]
        simp
      · rw [if_neg hc, if_neg hc, ih]

theorem evpnPhase_foldl (env : L3Env) :
    ∀ (hosts : List Str) (s : List Str),
      (∀ x ∈ s, env.connectOk x = true ∧ (env.output x).isEmpty = true) →
      hosts.foldl (evpnSessStep env) s =
        s ++ hosts.filter (fun h => env.connectOk h && (env.output h).isEmpty) := by
  intro hosts
  induction hosts with
  | nil => intro s _; simp
  | cons h hs ih =>
      intro s hinv
      rw [List.foldl_cons, List.filter_cons]
      by_cases hc : env.connectOk h = true
      · by_cases ho : (env.output h).isEmpty = true
        · have hinv' : ∀ x ∈ s ++ [h],
              env.connectOk x = true ∧ (env.output x).isEmpty = true := by
            intro x hx
            rcases List.mem_append.mp hx with hx | hx
            · exact hinv x hx
            · rw [List.mem_singleton] at hx; subst hx; exact ⟨hc, ho⟩
          have hstep : evpnSessStep env s h = s ++ [h] := by
            unfold evpnSessStep
            rw [if_pos hc]
            show (if (env.output h).isEmpty = true then s ++ [h]
              else (s ++ [h]).erase h) = s ++ [h]
            rw [if_pos ho]
          have hcond : (env.connectOk h && (env.output h).isEmpty) = true := by
            rw [hc, ho]; rfl
          rw [hstep, ih (s ++ [h]) hinv', if_pos hcond]
          simp
        · have hns : h ∉ s := fun hmem => ho (hinv h hmem).2
          have hstep : evpnSessStep env s h = s := by
            unfold evpnSessStep
            rw [if_pos hc]
            show (if (env.output h).isEmpty = true then s ++ [h]
              else (s ++ [h]).erase h) = s
            rw [if_neg ho, List.erase_append_right _ hns, List.erase_cons_head,
              List.append_nil]
          have hcond : (env.connectOk h && (env.output h).isEmpty) = false := by
            rw [hc, Bool.true_and]
            exact Bool.eq_false_iff.mpr ho
          rw [hstep, ih s hinv, if_neg (by rw [hcond]; exact Bool.false_ne_true)]
      · have hstep : evpnSessStep env s h = s := by
          unfold evpnSessStep
          rw [if_neg hc]
        have hcond : (env.connectOk h && (env.output h).isEmpty) = false := by
          rw [Bool.eq_false_iff.mpr hc, Bool.false_and]
        rw [hstep, ih s hinv, if_neg (by rw [hcond]; exact Bool.false_ne_true)]

/-- C9 counterexample: in ARP (standard) mode, a device that connects
successfully and returns ARP output keeps its session open at the end of the
resolution phase — `map_mac_to_ip` contains no `disconnect()` or
`disconnect_all()` on that path, so the set of open connections is not
empty. -/
theorem resolution_phase_sessions_cx :
    arpPhaseSessions ⟨fun _ => true, fun _ => str "arp output"⟩ [str "r1"] = [str "r1"] ∧
      ([str "r1"] : List Str) ≠ [] :=
  ⟨rfl, by decide⟩

/-- C9 (amended): the L2 collection phase releases every session
unconditionally (`disconnect_all` runs after the device loop and always
clears the connection set), but the L3/overlay resolution phase does not: in
ARP mode every successfully connected device's session stays open, and in
VXLAN mode exactly the sessions of devices whose EVPN fetch returned empty
output stay open. -/
theorem phase_session_cleanup (l2 : L2Env) (l3 : L3Env) (hosts : List Str) :
    (collectPhase l2 hosts).2 = [] ∧
    arpPhaseSessions l3 hosts = hosts.filter l3.connectOk ∧
    evpnPhaseSessions l3 hosts =
      hosts.filter (fun h => l3.connectOk h && (l3.output h).isEmpty) := by
  refine ⟨rfl, ?_, ?_⟩
  · rw [arpPhaseSessions, arpPhase_foldl l3 hosts [], List.nil_append]
  · rw [evpnPhaseSessions, evpnPhase_foldl l3 hosts [] (by simp), List.nil_append]

/-! ## EVPN line-scan results -/

theorem findWindowIp_spec (parts : List Str) (i : Nat) (ip : Str)
    (h : findWindowIp parts i = some ip) :
    ∃ j, i - 3 ≤ j ∧ j < min parts.length (i + 4) ∧
      isValidIp (parts.getD j []) = true ∧ ip = parts.getD j [] ∧
      ∀ j', i - 3 ≤ j' → j' < j → isValidIp (parts.getD j' []) = false := by
  unfold findWindowIp at h
  rcases Option.map_eq_some'.mp h with ⟨j, hfind, hip⟩
  obtain ⟨h1, h2, h3, h4⟩ := find?_range'_spec _ _ _ _ hfind
  exact ⟨j, h2, by omega, h1, hip.symm, h4⟩

theorem evpn_fold_sound (parts : List Str) :
    ∀ (is : List Nat) (acc : List (Str × Str)) (q : Str × Str),
      q ∈ is.foldl (evpnTokenStep parts) acc →
      q ∈ acc ∨ ∃ i ∈ is,
        (decide (':' ∈ parts.getD i []) || decide ('.' ∈ parts.getD i [])) = true ∧
          q.1 = lowerStr (parts.getD i []) ∧ findWindowIp parts i = some q.2 := by
  intro is
  induction is with
  | nil => intro acc q hq; exact Or.inl hq
  | cons i is ih =>
      intro acc q hq
      rw [List.foldl_cons] at hq
      rcases ih _ q hq with hacc | ⟨i', hi', rest⟩
      · by_cases hcond :
            (decide (':' ∈ parts.getD i []) || decide ('.' ∈ parts.getD i [])) = true
        · rw [evpnTokenStep] at hacc
          simp only [if_pos hcond] at hacc
          cases hw : findWindowIp parts i with
          | none => rw [hw] at hacc; exact Or.inl hacc
          | some ip =>
              rw [hw] at hacc
              rcases mem_dictInsert _ _ _ _ hacc with hkey | hmem
              · refine Or.inr ⟨i, List.mem_cons_self _ _, hcond, ?_, ?_⟩
                · rw [hkey]
                · rw [hkey, hw]
              · exact Or.inl hmem
        · rw [evpnTokenStep] at hacc
          simp only [if_neg hcond] at hacc
          exact Or.inl hacc
      · exact Or.inr ⟨i', List.mem_cons_of_mem _ hi', rest⟩

theorem evpn_fold_keys_mono (parts : List Str) :
    ∀ (is : List Nat) (acc : List (Str × Str)) (k : Str),
      k ∈ acc.map Prod.fst →
      k ∈ (is.foldl (evpnTokenStep parts) acc).map Prod.fst := by
  intro is
  induction is with
  | nil => intro acc k hk; exact hk
  | cons i is ih =>
      intro acc k hk
      rw [List.foldl_cons]
      apply ih
      simp only [evpnTokenStep]
      split
      · split
        · exact mem_keys_dictInsert_mono _ _ _ _ hk
        · exact hk
      · exact hk

theorem evpn_fold_complete (parts : List Str) :
    ∀ (is : List Nat) (acc : List (Str × Str)) (i : Nat) (ip : Str),
      i ∈ is →
      (decide (':' ∈ parts.getD i []) || decide ('.' ∈ parts.getD i [])) = true →
      findWindowIp parts i = some ip →
      lowerStr (parts.getD i []) ∈ (is.foldl (evpnTokenStep parts) acc).map Prod.fst := by
  intro is
  induction is with
  | nil => intro acc i ip h; simp at h
  | cons i' is ih =>
      intro acc i ip hmem hcond hw
      rw [List.foldl_cons]
      rcases List.mem_cons.mp hmem with heq | hmem'
      · subst heq
        apply evpn_fold_keys_mono
        rw [evpnTokenStep]
        simp only [hcond, if_true, hw]
        exact mem_keys_dictInsert_self _ _ _
      · exact ih _ i ip hmem' hcond hw

/-- C4 counterexample: the overlay parser is not the claimed procedure.
On the spec's own example line it produces three bindings — `1:1` and
`10.0.0.9` also contain separators and are treated as MACs, and the scan does
not stop after the first binding.  On `"mac aabbccddeeff 1.2.3.4"` the bare
12-hex token is not classified as a MAC (the line scan only tests for `:` or
`.`, not the full fallback rule), so the claimed binding for `aabbccddeeff`
is absent while the IP token binds to itself. -/
theorem evpn_line_scan_cx :
    parseEvpnOutput (str "Route Distinguisher 1:1 mac-ip aabb.bbcc.ccdd 10.0.0.9 Gi0/2") =
      [(str "1:1", str "10.0.0.9"), (str "aabb.bbcc.ccdd", str "10.0.0.9"),
        (str "10.0.0.9", str "10.0.0.9")] ∧
    parseEvpnOutput (str "mac aabbccddeeff 1.2.3.4") =
      [(str "1.2.3.4", str "1.2.3.4")] :=
  ⟨by decide, by decide⟩

/-- C4 (amended): on a line containing `"mac"` (case-insensitively), a
token is a MAC candidate iff it contains a colon or period (not the full
fallback rule of the structured extractor); every binding produced comes from
such a token together with the first dotted-quad IPv4 token in the window
from 3 tokens before to 3 after it; and the scan does not stop after a
binding — every separator-containing token whose window holds a valid IP
contributes a binding, so a line can produce several. -/
theorem evpn_line_scan_rule (b : List (Str × Str)) (line : Str) :
    (∀ q ∈ parseEvpnLine b line, q ∈ b ∨
      ∃ i, i < (splitWs line).length ∧
        (decide (':' ∈ (splitWs line).getD i []) ||
          decide ('.' ∈ (splitWs line).getD i [])) = true ∧
        q.1 = lowerStr ((splitWs line).getD i []) ∧
        findWindowIp (splitWs line) i = some q.2) ∧
    (∀ (parts : List Str) (i : Nat) (ip : Str), findWindowIp parts i = some ip →
      ∃ j, i - 3 ≤ j ∧ j < min parts.length (i + 4) ∧
        isValidIp (parts.getD j []) = true ∧ ip = parts.getD j [] ∧
        ∀ j', i - 3 ≤ j' → j' < j → isValidIp (parts.getD j' []) = false) ∧
    ((str "mac-ip" <:+: lowerStr line ∨ str "mac" <:+: lowerStr line) →
      ∀ i, i < (splitWs line).length →
        (decide (':' ∈ (splitWs line).getD i []) ||
          decide ('.' ∈ (splitWs line).getD i [])) = true →
        ∀ ip, findWindowIp (splitWs line) i = some ip →
          lowerStr ((splitWs line).getD i []) ∈ (parseEvpnLine b line).map Prod.fst) := by
  refine ⟨?_, ?_, ?_⟩
  · intro q hq
    rw [parseEvpnLine] at hq
    by_cases hcond : (decide (str "mac-ip" <:+: lowerStr line) ||
        decide (str "mac" <:+: lowerStr line)) = true
    · rw [if_pos hcond] at hq
      rcases evpn_fold_sound _ _ _ _ hq with h | ⟨i, hi, rest⟩
      · exact Or.inl h
      · exact Or.inr ⟨i, List.mem_range.mp hi, rest⟩
    · rw [if_neg hcond] at hq
      exact Or.inl hq
  · exact fun parts i ip h => findWindowIp_spec parts i ip h
  · intro hmac i hi hcond ip hw
    rw [parseEvpnLine]
    have hor : (decide (str "mac-ip" <:+: lowerStr line) ||
        decide (str "mac" <:+: lowerStr line)) = true := by
      rcases hmac with h | h
      · rw [decide_eq_true h, Bool.true_or]
      · rw [decide_eq_true h, Bool.or_true]
    rw [if_pos hor]
    exact evpn_fold_complete _ _ _ i ip (List.mem_range.mpr hi) hcond hw

def exampleParts : List Str := [str "mac", str "a.b", str "1.2.3.4"]

theorem evpn_line_scan_rule_wit :
    ∃ j, 1 - 3 ≤ j ∧ j < min exampleParts.length (1 + 4) ∧
      isValidIp (exampleParts.getD j []) = true ∧
      str "1.2.3.4" = exampleParts.getD j [] ∧
      ∀ j', 1 - 3 ≤ j' → j' < j → isValidIp (exampleParts.getD j' []) = false :=
  (evpn_line_scan_rule [] []).2.1 exampleParts 1 (str "1.2.3.4") (by decide)

/-! ## Correlator results -/

theorem processArpEntries_eq (store : Store) (table : CTable)
    (entries : List (List Str)) :
    processArpEntries store table entries =
      correlate store table (entries.filterMap extractBinding) := by
  unfold processArpEntries correlate
  generalize (store, ([] : List (Str × Nat))) = st
  induction entries generalizing st with
  | nil => rfl
  | cons e es ih =>
      rw [List.foldl_cons, List.filterMap_cons]
      cases he : extractBinding e with
      | none => rw [ih]
      | some b => rw [List.foldl_cons, ih]

def cxStore : Store := [⟨str "gi0/1", str "sw1", str "1", none⟩]

def cxTable : CTable := [(str "aa:bb", 0)]

def cxB1 : AddressBinding := ⟨str "aa:bb", str "1.1.1.1"⟩

def cxB2 : AddressBinding := ⟨str "aa:bb", str "2.2.2.2"⟩

/-- C5 counterexample: with two bindings for the same canonical MAC in
one resolution pass, the IP retained for the stored MAC is the second
binding's `2.2.2.2`, not the first's `1.1.1.1` — the first-written binding
does not win. -/
theorem binding_precedence_cx :
    (alookup (str "aa:bb") (correlate cxStore cxTable [cxB1, cxB2]).2).map
        (fun a => ((correlate cxStore cxTable [cxB1, cxB2]).1.getD a dfltInfo).ip) =
      some (some (str "2.2.2.2")) ∧
    (alookup (str "aa:bb") (correlate cxStore cxTable [cxB1, cxB2]).2).map
        (fun a => ((correlate cxStore cxTable [cxB1, cxB2]).1.getD a dfltInfo).ip) ≠
      some (some (str "1.1.1.1")) :=
  ⟨by decide, by decide⟩

/-- C5 (amended): within one resolution pass the last-written binding
wins — `mac_to_ip[stored_mac] = mac_info` is a plain dict assignment, so
after processing any bindings followed by a matching binding `b`, the record
stored under the matched MAC holds `b`'s IP, whatever earlier bindings for
the same canonical MAC wrote. -/
theorem binding_precedence_rule (store : Store) (table : CTable)
    (bs : List AddressBinding) (b : AddressBinding) (k : Str) (a : Nat)
    (hm : firstMatch table b.mac = some (k, a)) :
    alookup k (correlate store table (bs ++ [b])).2 =
      some (correlate store table bs).1.length ∧
    (correlate store table (bs ++ [b])).1.getD
        (correlate store table bs).1.length dfltInfo =
      { (correlate store table bs).1.getD a dfltInfo with ip := some b.ip } := by
  unfold correlate
  rw [List.foldl_append, List.foldl_cons, List.foldl_nil]
  simp only [correlateStep, hm]
  exact ⟨alookup_dictInsert_self _ _ _, getD_concat_self _ _ _⟩

theorem binding_precedence_rule_wit :
    alookup (str "aa:bb") (correlate cxStore cxTable ([cxB1] ++ [cxB2])).2 =
      some (correlate cxStore cxTable [cxB1]).1.length ∧
    (correlate cxStore cxTable ([cxB1] ++ [cxB2])).1.getD
        (correlate cxStore cxTable [cxB1]).1.length dfltInfo =
      { (correlate cxStore cxTable [cxB1]).1.getD 0 dfltInfo with ip := some cxB2.ip } :=
  binding_precedence_rule cxStore cxTable [cxB1] cxB2 (str "aa:bb") 0 (by decide)

/-- C10: the resolution pass never mutates the cells of the input MAC
table.  Each matched info dictionary is copied (`.copy()`) before the IP is
added and the copy is placed in a fresh store cell, so every store address
that existed before the pass — in particular every cell the L2 table points
to — holds exactly its old contents (port, vlan, device and absent ip)
afterwards, in EVPN mode and in ARP mode alike. -/
theorem map_mac_to_ip_frame (store : Store) (table : CTable)
    (entries : List (List Str)) (bdict : List (Str × Str))
    (bs : List AddressBinding) (a : Nat) (ha : a < store.length) :
    (correlate store table bs).1.getD a dfltInfo = store.getD a dfltInfo ∧
    (processArpEntries store table entries).1.getD a dfltInfo = store.getD a dfltInfo ∧
    (processEvpnBindings store table bdict).1.getD a dfltInfo = store.getD a dfltInfo :=
  ⟨getD_of_extension (correlate_store_extends store table bs) ha dfltInfo,
    getD_of_extension (processArpEntries_store_extends store table entries) ha dfltInfo,
    getD_of_extension (processEvpnBindings_store_extends store table bdict) ha dfltInfo⟩

theorem map_mac_to_ip_frame_wit :
    (correlate cxStore cxTable [cxB1, cxB2]).1.getD 0 dfltInfo = cxStore.getD 0 dfltInfo ∧
    (processArpEntries cxStore cxTable [[str "10.0.0.5", str "00", str "aa:bb"]]).1.getD
        0 dfltInfo = cxStore.getD 0 dfltInfo ∧
    (processEvpnBindings cxStore cxTable [(str "aa:bb", str "10.0.0.9")]).1.getD
        0 dfltInfo = cxStore.getD 0 dfltInfo :=
  map_mac_to_ip_frame cxStore cxTable [[str "10.0.0.5", str "00", str "aa:bb"]]
    [(str "aa:bb", str "10.0.0.9")] [cxB1, cxB2] 0 (by decide)

theorem correlate_fold_inv (table : CTable) (store₀ : Store)
    (haddr : ∀ p ∈ table, p.2 < store₀.length) :
    ∀ (bs seen : List AddressBinding) (st : Store × List (Str × Nat)),
      store₀ <+: st.1 →
      (st.2.map Prod.fst).Nodup →
      (∀ p ∈ st.2, p.2 < st.1.length ∧
        ∃ a₀ b, (p.1, a₀) ∈ table ∧ firstMatch table p.1 = some (p.1, a₀) ∧
          b ∈ seen ∧ stripSeps b.mac = stripSeps p.1 ∧
          st.1.getD p.2 dfltInfo =
            { store₀.getD a₀ dfltInfo with ip := some b.ip }) →
      store₀ <+: (bs.foldl (correlateStep table) st).1 ∧
      (((bs.foldl (correlateStep table) st).2.map Prod.fst).Nodup) ∧
      (∀ p ∈ (bs.foldl (correlateStep table) st).2,
        p.2 < (bs.foldl (correlateStep table) st).1.length ∧
        ∃ a₀ b, (p.1, a₀) ∈ table ∧ firstMatch table p.1 = some (p.1, a₀) ∧
          b ∈ seen ++ bs ∧ stripSeps b.mac = stripSeps p.1 ∧
          (bs.foldl (correlateStep table) st).1.getD p.2 dfltInfo =
            { store₀.getD a₀ dfltInfo with ip := some b.ip }) := by
  intro bs
  induction bs with
  | nil =>
      intro seen st h1 h2 h3
      refine ⟨h1, h2, fun p hp => ?_⟩
      obtain ⟨hlt, a₀, b, hmem, hfm, hb, hstrip, hget⟩ := h3 p hp
      exact ⟨hlt, a₀, b, hmem, hfm, List.mem_append_left _ hb, hstrip, hget⟩
  | cons b bs ih =>
      intro seen st h1 h2 h3
      rw [List.foldl_cons]
      have hstep1 : store₀ <+: (correlateStep table st b).1 :=
        h1.trans (correlateStep_store_extends table st b)
      have hstep2 : ((correlateStep table st b).2.map Prod.fst).Nodup := by
        cases hfm : firstMatch table b.mac with
        | none => simp only [correlateStep, hfm]; exact h2
        | some q =>
            obtain ⟨k, a⟩ := q
            simp only [correlateStep, hfm]
            exact nodup_keys_dictInsert _ _ _ h2
      have hstep3 : ∀ p ∈ (correlateStep table st b).2,
          p.2 < (correlateStep table st b).1.length ∧
          ∃ a₀ b', (p.1, a₀) ∈ table ∧ firstMatch table p.1 = some (p.1, a₀) ∧
            b' ∈ seen ++ [b] ∧ stripSeps b'.mac = stripSeps p.1 ∧
            (correlateStep table st b).1.getD p.2 dfltInfo =
              { store₀.getD a₀ dfltInfo with ip := some b'.ip } := by
        cases hfm : firstMatch table b.mac with
        | none =>
            simp only [correlateStep, hfm]
            intro p hp
            obtain ⟨hlt, a₀, b', hmem, hfm', hb', hstrip, hget⟩ := h3 p hp
            exact ⟨hlt, a₀, b', hmem, hfm', List.mem_append_left _ hb', hstrip, hget⟩
        | some q =>
            obtain ⟨k, a⟩ := q
            obtain ⟨hka, hstripb, hfmk⟩ := firstMatch_eq_some hfm
            have halt : a < store₀.length := haddr (k, a) hka
            have hgeta : st.1.getD a dfltInfo = store₀.getD a dfltInfo :=
              getD_of_extension h1 halt dfltInfo
            simp only [correlateStep, hfm]
            intro p hp
            rcases mem_dictInsert _ _ _ _ hp with hpk | hpm
            · subst hpk
              refine ⟨by simp, a, b, hka, hfmk, List.mem_append_right _
                (List.mem_singleton_self b), hstripb, ?_⟩
              rw [getD_concat_self, hgeta]
            · obtain ⟨hlt, a₀, b', hmem, hfm', hb', hstrip, hget⟩ := h3 p hpm
              refine ⟨by simp; omega, a₀, b', hmem, hfm',
                List.mem_append_left _ hb', hstrip, ?_⟩
              rw [getD_of_extension (List.prefix_append st.1 _) hlt, hget]
      obtain ⟨g1, g2, g3⟩ := ih (seen ++ [b]) (correlateStep table st b)
        hstep1 hstep2 hstep3
      refine ⟨g1, g2, fun p hp => ?_⟩
      obtain ⟨hlt, a₀, b', hmem, hfm', hb', hstrip, hget⟩ := g3 p hp
      refine ⟨hlt, a₀, b', hmem, hfm', ?_, hstrip, hget⟩
      rw [List.append_assoc, List.singleton_append] at hb'
      exact hb'

/-- C3: for every MAC table (with lower-cased keys and live cell
addresses, as `collect_mac_addresses` produces) and every sequence of
(lower-cased) address bindings, the correlator output has at most one record
per comparison-canonical MAC; each record's key is a stored table MAC
matched by some binding, namely the first table key whose canonical form
matches; and the record combines that first matching entry's port/vlan/device
(its cell copied unchanged except for the added ip) with a matching binding's
IP. -/
theorem correlate_output_spec (store : Store) (table : CTable)
    (bs : List AddressBinding)
    (hkeys : ∀ k ∈ table.map Prod.fst, lowerStr k = k)
    (hbs : ∀ b ∈ bs, lowerStr b.mac = b.mac)
    (haddr : ∀ p ∈ table, p.2 < store.length) :
    (((correlate store table bs).2.map Prod.fst).Pairwise
      fun k₁ k₂ => canon k₁ ≠ canon k₂) ∧
    ∀ p ∈ (correlate store table bs).2,
      ∃ a₀ b, (p.1, a₀) ∈ table ∧ firstMatch table p.1 = some (p.1, a₀) ∧
        b ∈ bs ∧ canon b.mac = canon p.1 ∧
        (correlate store table bs).1.getD p.2 dfltInfo =
          { store.getD a₀ dfltInfo with ip := some b.ip } := by
  obtain ⟨g1, g2, g3⟩ := correlate_fold_inv table store haddr bs [] (store, [])
    (List.prefix_refl store) (by simp) (by simp)
  have hcanon : ∀ k, k ∈ table.map Prod.fst → canon k = stripSeps k := by
    intro k hk
    rw [canon, hkeys k hk]
  constructor
  · refine List.Pairwise.imp_of_mem ?_ g2
    intro k₁ k₂ h₁m h₂m hne hc
    rcases List.mem_map.mp h₁m with ⟨p₁, hp₁, hk₁⟩
    rcases List.mem_map.mp h₂m with ⟨p₂, hp₂, hk₂⟩
    obtain ⟨_, a₁, b₁, hmem₁, hfm₁, _, _, _⟩ := g3 p₁ hp₁
    obtain ⟨_, a₂, b₂, hmem₂, hfm₂, _, _, _⟩ := g3 p₂ hp₂
    subst hk₁
    subst hk₂
    have hstripeq : stripSeps p₁.1 = stripSeps p₂.1 := by
      rw [← hcanon _ (List.mem_map_of_mem Prod.fst hmem₁),
        ← hcanon _ (List.mem_map_of_mem Prod.fst hmem₂)]
      exact hc
    have := hfm₁.symm.trans ((firstMatch_congr table p₁.1 p₂.1 hstripeq).trans hfm₂)
    rw [Option.some.injEq, Prod.mk.injEq] at this
    exact hne this.1
  · intro p hp
    obtain ⟨_, a₀, b, hmem, hfm, hb, hstrip, hget⟩ := g3 p hp
    rw [List.nil_append] at hb
    refine ⟨a₀, b, hmem, hfm, hb, ?_, hget⟩
    rw [canon, hbs b hb, hcanon _ (List.mem_map_of_mem Prod.fst hmem), hstrip]

theorem correlate_output_spec_wit :
    (((correlate cxStore cxTable [cxB1]).2.map Prod.fst).Pairwise
      fun k₁ k₂ => canon k₁ ≠ canon k₂) :=
  (correlate_output_spec cxStore cxTable [cxB1]
    (by decide) (by decide) (by decide)).1
